import Mathlib

/-!
Shallow embedding of the pagination and version/config modules of the
`i-vis-core` repository (`i_vis/core/blueprint.py`, `i_vis/core/version.py`,
`i_vis/core/config.py`), together with proofs about the embedded code.

Python integers are modelled as `Int`, Python strings as `String` or
`List Char`, `None`-able values as `Option`, raised exceptions as
`Option`/`Except` results.
-/

namespace IVis

/-! ## Pagination (`i_vis/core/blueprint.py`) -/

/-- `get_next_id(current_id, size, total)` from `blueprint.py` (lines 177-194):
returns `current_id + size` when `current_id < total` and
`current_id + size < total`, else `None`. -/
def get_next_id (current_id size total : Int) : Option Int :=
  if current_id < total then
    let next_id := current_id + size
    if next_id < total then some next_id else none
  else
    none

/-- Python list-slice index normalisation: for a list of length `n`, a slice
bound `i` becomes `n + i` clamped to `[0, n]` when negative, else `i` clamped
to `n`.  (`Int.toNat` already sends negative numbers to `0`.) -/
def pyIndex (n : Nat) (i : Int) : Nat :=
  if i < 0 then (i + n).toNat else min i.toNat n

/-- Python slice `l[a:b]`. -/
def pySlice (l : List α) (a b : Int) : List α :=
  (l.take (pyIndex l.length b)).drop (pyIndex l.length a)

/-- Python dict assignment `m[k] = v` on an insertion-ordered mapping:
replaces the value in place if the key exists, else appends. -/
def dictSet (m : List (String × β)) (k : String) (v : β) : List (String × β) :=
  if m.any (fun p => p.1 == k) then
    m.map (fun p => if p.1 == k then (k, v) else p)
  else
    m ++ [(k, v)]

/-- `DictWrapper` from `blueprint.py`: an insertion-ordered mapping (modelled
as an association list), the base links and the next-link callback. -/
structure DictWrapper (κ α : Type) where
  results : List (κ × α)
  links : List (String × String)
  next_callback : Int → String

/-- `PaginatedResult` from `blueprint.py`: page results, the optional `keys`
sequence, and the pager info (`next_id`, `total`) plus `links` flattened in. -/
structure PaginatedResult (κ α : Type) where
  results : List α
  keys : Option (List κ)
  next_id : Option Int
  total : Nat
  links : List (String × String)

/-- `PaginatedResult.data` (`blueprint.py` lines 110-115): if `self.keys` is
truthy (not `None` and non-empty) zip keys with results into a mapping,
otherwise return the results sequence unchanged. -/
def PaginatedResult.data (r : PaginatedResult κ α) : List (κ × α) ⊕ List α :=
  match r.keys with
  | some ks => if ks.isEmpty then Sum.inr r.results else Sum.inl (ks.zip r.results)
  | none => Sum.inr r.results

/-- `DictPager.paginated_result` (`blueprint.py` lines 212-238):
`total = len(results)`, `next_id = get_next_id(current_id, size, total)`,
`links["next"]` is added when `next_id` is truthy (not `None`, not `0`),
`keys = list(results.keys())` (the full key list), and the page is the value
slice `values[current_id : current_id + size]`. -/
def dictPaginatedResult (obj : DictWrapper κ α) (current_id size : Int) :
    PaginatedResult κ α :=
  let total := obj.results.length
  let next_id := get_next_id current_id size total
  let links :=
    match next_id with
    | some n => if n ≠ 0 then dictSet obj.links "next" (obj.next_callback n) else obj.links
    | none => obj.links
  let keys := obj.results.map Prod.fst
  let values := obj.results.map Prod.snd
  { results := pySlice values current_id (current_id + size)
    keys := some keys
    next_id := next_id
    total := total
    links := links }

/-- The row ordering used by the keyset pager: compare rows by the pagination
key column. -/
def keyLE (key : α → Int) : α → α → Prop := fun a b => key a ≤ key b

instance (key : α → Int) : DecidableRel (keyLE key) := fun a b => Int.decLe _ _

/-- `QueryWrapper` from `blueprint.py`: the pagination key column is modelled
as the function `key` reading that column from a row, and the query as the
list of rows it would produce. -/
structure QueryWrapper (α : Type) where
  key : α → Int
  rows : List α
  links : List (String × String)
  next_callback : Int → String

/-- `QueryPager.paginated_result` (`blueprint.py` lines 258-292):
`total = query.count()` (unfiltered), fetch rows with `column >= current_id`
ordered ascending by `column` limited to `size + 1`; when more than `size`
rows come back, `next_id` is the key of row `size` (0-indexed) and the page is
trimmed to the first `size` rows (`results[slice(size)]`), else `next_id` is
`None`.  The SQL `filter`/`order_by`/`limit` pipeline is modelled as
filter, stable sort by the key, and `take`. -/
def queryPaginatedResult (obj : QueryWrapper α) (current_id size : Int) :
    PaginatedResult Empty α :=
  let total := obj.rows.length
  let sorted := List.insertionSort (keyLE obj.key)
    (obj.rows.filter (fun r => decide (current_id ≤ obj.key r)))
  let fetched := sorted.take (size + 1).toNat
  if (fetched.length : Int) > size then
    let next_id := (fetched[size.toNat]?).map obj.key
    let links :=
      match next_id with
      | some n => if n ≠ 0 then dictSet obj.links "next" (obj.next_callback n) else obj.links
      | none => obj.links
    { results := pySlice fetched 0 size
      keys := none
      next_id := next_id
      total := total
      links := links }
  else
    { results := fetched, keys := none, next_id := none, total := total, links := obj.links }

/-- C1: for every `current_id ≥ 0`, `size > 0` and `total ≥ 0`,
`get_next_id(current_id, size, total)` returns `None` iff
`current_id ≥ total` or `current_id + size ≥ total`, and otherwise returns
`current_id + size`. -/
theorem get_next_id_spec (current_id size total : Int)
    (h1 : 0 ≤ current_id) (h2 : 0 < size) (h3 : 0 ≤ total) :
    (get_next_id current_id size total = none ↔
      total ≤ current_id ∨ total ≤ current_id + size) ∧
    (current_id < total → current_id + size < total →
      get_next_id current_id size total = some (current_id + size)) := by
  have e : get_next_id current_id size total =
      if current_id < total then
        (if current_id + size < total then some (current_id + size) else none)
      else none := rfl
  rw [e]
  split_ifs with ha hb
  · exact ⟨iff_of_false (by simp) (by omega), fun _ _ => rfl⟩
  · exact ⟨iff_of_true rfl (by omega), fun _ h => absurd h hb⟩
  · exact ⟨iff_of_true rfl (by omega), fun h _ => absurd h ha⟩

/-- Witness for `get_next_id_spec` at `(0, 1, 3)`. -/
theorem get_next_id_spec_witness :
    (get_next_id 0 1 3 = none ↔ (3 : Int) ≤ 0 ∨ (3 : Int) ≤ 0 + 1) ∧
      ((0 : Int) < 3 → (0 : Int) + 1 < 3 → get_next_id 0 1 3 = some (0 + 1)) :=
  get_next_id_spec 0 1 3 (by decide) (by decide) (by decide)

/-- C9: for every mapping and parameters with `current_id ≥ total`, the
dictionary pager returns an empty results page with `next_id = None`
(no exception can occur: the embedded pager is a total function). -/
theorem dictPager_past_end (κ α : Type) (obj : DictWrapper κ α) (current_id size : Int)
    (h : (obj.results.length : Int) ≤ current_id) :
    (dictPaginatedResult obj current_id size).results = [] ∧
    (dictPaginatedResult obj current_id size).next_id = none := by
  have hn : get_next_id current_id size obj.results.length = none := by
    unfold get_next_id
    rw [if_neg (by omega)]
  constructor
  · show pySlice (obj.results.map Prod.snd) current_id (current_id + size) = []
    unfold pySlice
    apply List.drop_eq_nil_of_le
    have hidx : pyIndex (obj.results.map Prod.snd).length current_id =
        obj.results.length := by
      unfold pyIndex
      rw [if_neg (by omega), List.length_map]
      omega
    rw [hidx]
    calc (((obj.results.map Prod.snd).take _).length) ≤
        (obj.results.map Prod.snd).length := by
          rw [List.length_take]; omega
      _ = obj.results.length := List.length_map _ _
  · show get_next_id current_id size (obj.results.length) = none
    exact hn

/-- Witness for `dictPager_past_end`: a three-entry mapping paged from
`current_id = 5`. -/
theorem dictPager_past_end_witness :
    (dictPaginatedResult
        (⟨[("a", 1), ("b", 2), ("c", 3)], [], fun _ => ""⟩ : DictWrapper String Int)
        5 2).results = [] ∧
    (dictPaginatedResult
        (⟨[("a", 1), ("b", 2), ("c", 3)], [], fun _ => ""⟩ : DictWrapper String Int)
        5 2).next_id = none :=
  dictPager_past_end String Int ⟨[("a", 1), ("b", 2), ("c", 3)], [], fun _ => ""⟩ 5 2
    (by decide)

/-- C3 (divergence witness): `DictPager.paginated_result` passes the **full**
key list (`keys = list(results.keys())`), not the slice of keys matching the
page, so `PaginatedResult.data` pairs this page's values with the first keys
of the mapping: on `{a: 1, b: 2, c: 3}` with `current_id = 1, size = 1` the
page values are `[2]` but `data` is `{a: 2}` instead of `{b: 2}`. -/
theorem dictPager_keys_not_sliced :
    (dictPaginatedResult
        (⟨[("a", 1), ("b", 2), ("c", 3)], [], fun _ => ""⟩ : DictWrapper String Int)
        1 1).results = [2] ∧
    (dictPaginatedResult
        (⟨[("a", 1), ("b", 2), ("c", 3)], [], fun _ => ""⟩ : DictWrapper String Int)
        1 1).keys = some ["a", "b", "c"] ∧
    (dictPaginatedResult
        (⟨[("a", 1), ("b", 2), ("c", 3)], [], fun _ => ""⟩ : DictWrapper String Int)
        1 1).data = Sum.inl [("a", 2)] := by
  refine ⟨rfl, rfl, rfl⟩

/-- `pySlice l 0 b` is `List.take` for a non-negative upper bound. -/
theorem pySlice_zero (l : List α) (b : Int) (hb : 0 ≤ b) :
    pySlice l 0 b = l.take b.toNat := by
  unfold pySlice pyIndex
  rw [if_neg (by omega), if_neg (by omega)]
  have h0 : min (Int.toNat 0) l.length = 0 := by simp
  rw [h0, List.drop_zero, ← List.take_take, List.take_length]

/-- The ten-row source with keys `1..10` used by the keyset-pager examples. -/
def rows10 : QueryWrapper Int :=
  ⟨fun n => n, [1, 2, 3, 4, 5, 6, 7, 8, 9, 10], [], fun _ => ""⟩

/-- C2: over a source of rows sorted by the key column and `size > 0`,
`QueryPager.paginated_result` takes `total` from the unfiltered source, keeps
the rows with key `≥ current_id` limited to `size + 1`; with more than `size`
rows fetched, `next_id` is the key of the fetched row at 0-based index `size`
and the page is the first `size` fetched rows, otherwise `next_id` is `None`
and the whole fetch is returned.  In particular over rows keyed `1..10`:
`current_id=1, size=2` yields `[1, 2]`; `current_id=10, size=2` yields `[10]`
with `next_id = None`; `current_id=11, size=5` yields `[]`. -/
theorem queryPager_spec (α : Type) (obj : QueryWrapper α) (current_id size : Int)
    (hsize : 0 < size) (hsorted : obj.rows.Sorted (keyLE obj.key)) :
    ((queryPaginatedResult obj current_id size).total = obj.rows.length ∧
     (size <
        (((obj.rows.filter fun r => decide (current_id ≤ obj.key r)).take
          (size + 1).toNat).length : Int) →
        (queryPaginatedResult obj current_id size).results =
          ((obj.rows.filter fun r => decide (current_id ≤ obj.key r)).take
            (size + 1).toNat).take size.toNat ∧
        (queryPaginatedResult obj current_id size).next_id =
          (((obj.rows.filter fun r => decide (current_id ≤ obj.key r)).take
            (size + 1).toNat)[size.toNat]?).map obj.key) ∧
     ((((obj.rows.filter fun r => decide (current_id ≤ obj.key r)).take
          (size + 1).toNat).length : Int) ≤ size →
        (queryPaginatedResult obj current_id size).results =
          (obj.rows.filter fun r => decide (current_id ≤ obj.key r)).take
            (size + 1).toNat ∧
        (queryPaginatedResult obj current_id size).next_id = none)) ∧
    ((queryPaginatedResult rows10 1 2).results = [1, 2] ∧
     (queryPaginatedResult rows10 10 2).results = [10] ∧
     (queryPaginatedResult rows10 10 2).next_id = none ∧
     (queryPaginatedResult rows10 11 5).results = []) := by
  have hfsort :
      List.insertionSort (keyLE obj.key)
        (obj.rows.filter fun r => decide (current_id ≤ obj.key r)) =
      obj.rows.filter fun r => decide (current_id ≤ obj.key r) :=
    (hsorted.filter _).insertionSort_eq
  refine ⟨⟨?_, ?_, ?_⟩, by decide, by decide, by decide, by decide⟩
  · unfold queryPaginatedResult
    dsimp only
    split <;> rfl
  · intro hgt
    unfold queryPaginatedResult
    dsimp only
    rw [hfsort, if_pos hgt]
    exact ⟨pySlice_zero _ size (le_of_lt hsize), rfl⟩
  · intro hle
    unfold queryPaginatedResult
    dsimp only
    rw [hfsort, if_neg (not_lt.mpr hle)]
    exact ⟨rfl, rfl⟩

/-- Witness for `queryPager_spec`: the ten-row keyed source with
`current_id = 1, size = 2`. -/
theorem queryPager_spec_witness :
    ((queryPaginatedResult rows10 1 2).total = rows10.rows.length ∧
     ((2 : Int) <
        (((rows10.rows.filter fun r => decide ((1 : Int) ≤ rows10.key r)).take
          ((2 : Int) + 1).toNat).length : Int) →
        (queryPaginatedResult rows10 1 2).results =
          ((rows10.rows.filter fun r => decide ((1 : Int) ≤ rows10.key r)).take
            ((2 : Int) + 1).toNat).take (2 : Int).toNat ∧
        (queryPaginatedResult rows10 1 2).next_id =
          (((rows10.rows.filter fun r => decide ((1 : Int) ≤ rows10.key r)).take
            ((2 : Int) + 1).toNat)[(2 : Int).toNat]?).map rows10.key) ∧
     ((((rows10.rows.filter fun r => decide ((1 : Int) ≤ rows10.key r)).take
          ((2 : Int) + 1).toNat).length : Int) ≤ 2 →
        (queryPaginatedResult rows10 1 2).results =
          (rows10.rows.filter fun r => decide ((1 : Int) ≤ rows10.key r)).take
            ((2 : Int) + 1).toNat ∧
        (queryPaginatedResult rows10 1 2).next_id = none)) ∧
    ((queryPaginatedResult rows10 1 2).results = [1, 2] ∧
     (queryPaginatedResult rows10 10 2).results = [10] ∧
     (queryPaginatedResult rows10 10 2).next_id = none ∧
     (queryPaginatedResult rows10 11 5).results = []) :=
  queryPager_spec Int rows10 1 2 (by decide) (by decide)

/-! ## Versions (`i_vis/core/version.py`) -/

/-- `less_than(self, other, attrs)` (`version.py` lines 247-275), applied to
the list of attribute pairs `(getattr(self, attr), getattr(other, attr))` in
priority order; a missing attribute value is `none`.  Mirrors the loop: a
present/absent pair returns `False`, both present and unequal returns the
numeric comparison, an absent/present pair returns `True`, equal or
absent/absent pairs fall through, and an exhausted loop returns `False`. -/
def less_than : List (Option Int × Option Int) → Bool
  | [] => false
  | (attr1, attr2) :: rest =>
    match attr1, attr2 with
    | some _, none => false
    | some x, some y => if x < y then true else if x > y then false else less_than rest
    | none, some _ => true
    | none, none => less_than rest

/-- The comparison as the specification words it: find the first attribute
pair where the two sides differ in value or presence; the left side is less
exactly when there its value is absent and the other's present, or both are
present and the left value is numerically smaller; if no pair differs, the
left side is not less. -/
def firstDiffLess (pairs : List (Option Int × Option Int)) : Bool :=
  match pairs.find? (fun p => decide (p.1 ≠ p.2)) with
  | none => false
  | some (none, _) => true
  | some (some x, some y) => decide (x < y)
  | some (some _, none) => false

theorem less_than_eq_firstDiffLess (l : List (Option Int × Option Int)) :
    less_than l = firstDiffLess l := by
  induction l with
  | nil => rfl
  | cons p rest ih =>
    obtain ⟨a1, a2⟩ := p
    rcases a1 with _ | x <;> rcases a2 with _ | y
    · show less_than rest = firstDiffLess ((none, none) :: rest)
      unfold firstDiffLess
      rw [List.find?_cons_of_neg _ (by simp)]
      exact ih
    · show true = firstDiffLess ((none, some y) :: rest)
      unfold firstDiffLess
      rw [List.find?_cons_of_pos _ (by simp)]
    · show false = firstDiffLess ((some x, none) :: rest)
      unfold firstDiffLess
      rw [List.find?_cons_of_pos _ (by simp)]
    · by_cases hxy : x = y
      · subst hxy
        show (if x < x then true else if x > x then false else less_than rest) =
          firstDiffLess ((some x, some x) :: rest)
        rw [if_neg (lt_irrefl x), if_neg (lt_irrefl x)]
        unfold firstDiffLess
        rw [List.find?_cons_of_neg _ (by simp)]
        exact ih
      · show (if x < y then true else if x > y then false else less_than rest) =
          firstDiffLess ((some x, some y) :: rest)
        unfold firstDiffLess
        rw [List.find?_cons_of_pos _ (by simp [hxy])]
        rcases lt_trichotomy x y with h | h | h
        · rw [if_pos h]
          simp [h]
        · exact absurd h hxy
        · rw [if_neg (by omega), if_pos (by omega)]
          simp [lt_asymm h]

/-- `Default` semantic version (`version.py` lines 171-233): `major`, optional
`minor`/`patch`, and the string decorations around them.  The Python `prefix`
attribute is named `pre` here. -/
structure Default where
  major : Int
  minor : Option Int
  patch : Option Int
  pre : List Char
  suffix : List Char
  deriving DecidableEq

/-- `Default.__lt__` (`version.py` lines 211-214): `less_than` over
`("major", "minor", "patch")`. -/
def defaultLt (v w : Default) : Bool :=
  less_than [(some v.major, some w.major), (v.minor, w.minor), (v.patch, w.patch)]

/-- A calendar date; models both `datetime.date` and the `Date` version kind
(`version.py` lines 89-158), which wraps one. -/
structure Date where
  year : Nat
  month : Nat
  day : Nat
  deriving DecidableEq

/-- `Date.__lt__` (`version.py` lines 115-118): `less_than` over
`["year", "month", "day"]`; all three attributes are always present. -/
def dateLt (d e : Date) : Bool :=
  less_than [(some (d.year : Int), some (e.year : Int)),
    (some (d.month : Int), some (e.month : Int)),
    (some (d.day : Int), some (e.day : Int))]

/-- C4: comparing two versions of the same concrete kind attribute-by-attribute
in priority order, `self < other` holds exactly when at the first differing
attribute `self`'s value is absent and `other`'s present, or both are present
and `self`'s is numerically smaller; a present/absent pair decides `False` at
once and all-equal attributes give `False`.  In particular
`Default(1,0,1) < Default(1,1,1)` and `Default(1,1) < Default(1,1,1)`. -/
theorem less_than_first_diff :
    (∀ v w : Default, defaultLt v w =
      firstDiffLess [(some v.major, some w.major), (v.minor, w.minor), (v.patch, w.patch)]) ∧
    (∀ d e : Date, dateLt d e =
      firstDiffLess [(some (d.year : Int), some (e.year : Int)),
        (some (d.month : Int), some (e.month : Int)),
        (some (d.day : Int), some (e.day : Int))]) ∧
    defaultLt ⟨1, some 0, some 1, [], []⟩ ⟨1, some 1, some 1, [], []⟩ = true ∧
    defaultLt ⟨1, some 1, none, [], []⟩ ⟨1, some 1, some 1, [], []⟩ = true :=
  ⟨fun _ _ => less_than_eq_firstDiffLess _, fun _ _ => less_than_eq_firstDiffLess _,
    by decide, by decide⟩

/-- Decimal digits of `n`, most significant first, by repeated division; the
fuel argument (any bound `≥ n`) makes the recursion structural. -/
def natStrAux : Nat → Nat → List Char
  | 0, _ => []
  | _ + 1, 0 => []
  | fuel + 1, n + 1 =>
    natStrAux fuel ((n + 1) / 10) ++ [Char.ofNat (48 + (n + 1) % 10)]

/-- Python `str` of a non-negative `int`. -/
def natStr (n : Nat) : List Char :=
  if n = 0 then ['0'] else natStrAux n n

/-- Python `str` of an `int`. -/
def intStr (i : Int) : List Char :=
  if i < 0 then '-' :: natStr (-i).toNat else natStr i.toNat

/-- Zero-pad a rendered number to width `w` (`strftime` style). -/
def padNat (w n : Nat) : List Char :=
  List.replicate (w - (natStr n).length) '0' ++ natStr n

/-- Python `".".join(parts)`. -/
def joinDot : List (List Char) → List Char
  | [] => []
  | [x] => x
  | x :: xs => x ++ '.' :: joinDot xs

/-- `Default.__str__` (`version.py` lines 194-196): prefix, the non-`None`
numeric fields joined with `"."`, then the suffix. -/
def strDefault (v : Default) : List Char :=
  v.pre ++ joinDot (([some v.major, v.minor, v.patch].filterMap id).map intStr) ++ v.suffix

/-- `Default.__eq__` (`version.py` lines 206-209): string-representation
equality. -/
def eqDefault (v w : Default) : Bool :=
  strDefault v == strDefault w

/-- `Date.__str__` (`version.py` lines 107-108): `strftime("%Y_%m_%d")`,
i.e. the zero-padded `YYYY_MM_DD` rendering. -/
def strDate (d : Date) : List Char :=
  padNat 4 d.year ++ '_' :: (padNat 2 d.month ++ '_' :: padNat 2 d.day)

/-- `Date.__eq__` (`version.py` lines 110-113): string-representation
equality. -/
def eqDate (d e : Date) : Bool :=
  strDate d == strDate e

/-- `Date.to_date` (`version.py` lines 123-126): rebuild a plain
`datetime.date` from the year/month/day fields. -/
def toDate (d : Date) : Date :=
  ⟨d.year, d.month, d.day⟩

/-- The `Version` hierarchy (`version.py`): the three concrete kinds.
`Nightly` is a `Date` with a particular value and needs no own constructor. -/
inductive Version where
  | unknown
  | date (d : Date)
  | semantic (v : Default)

/-- Python `==` over `Version` values, with the reflected-operand fallback:
`Unknown.__eq__` answers `False` for any `Version` operand (`version.py`
lines 71-74); `Date.__eq__`/`Default.__eq__` compare string renderings of
operands of their own kind and return `NotImplemented` otherwise, in which
case Python falls back to the other operand's `__eq__` and finally to
identity, where two distinct objects compare `False`. -/
def veq : Version → Version → Bool
  | .unknown, _ => false
  | _, .unknown => false
  | .date d, .date e => eqDate d e
  | .semantic v, .semantic w => eqDefault v w
  | .date _, .semantic _ => false
  | .semantic _, .date _ => false

/-- Python `<` over `Version` values: `Unknown.__lt__` answers `False` for an
`Unknown` operand (`version.py` lines 76-79), `Date.__lt__`/`Default.__lt__`
compare via `less_than`; every mixed-kind comparison leaves `NotImplemented`
on both sides so Python raises `TypeError`, modelled as `none`. -/
def vlt : Version → Version → Option Bool
  | .unknown, .unknown => some false
  | .date d, .date e => some (dateLt d e)
  | .semantic v, .semantic w => some (defaultLt v w)
  | _, _ => none

/-- Python `hash` over `Version` values: `Unknown.__hash__` is the constant
`0` (`version.py` lines 81-82); the hashes of the other kinds delegate to the
CPython hashes of a `datetime.date` and of the tuple of truthy numeric
fields (`version.py` lines 120-121 and 216-217), kept abstract here as the
parameters `hashDate` and `hashTuple`. -/
def vhash (hashDate : Date → Int) (hashTuple : List Int → Int) : Version → Int
  | .unknown => 0
  | .date d => hashDate d
  | .semantic v =>
    hashTuple (([some v.major, v.minor, v.patch].filterMap id).filter (fun x => x ≠ 0))

/-- `Version.is_known` (`version.py` lines 60-62, overridden at 84-86):
`True` except for `Unknown`. -/
def is_known : Version → Bool
  | .unknown => false
  | .date _ => true
  | .semantic _ => true

/-- C5: `Unknown() == v` is `False` for every `Version` value `v` (another
`Unknown` included), `Unknown() < Unknown()` is `False` (and defined), every
`Unknown` hashes to the constant `0` whatever the hashes of the other kinds
are, and `Unknown().is_known` is `False`. -/
theorem unknown_version_spec :
    (∀ v : Version, veq .unknown v = false) ∧
    vlt .unknown .unknown = some false ∧
    (∀ (hashDate : Date → Int) (hashTuple : List Int → Int),
      vhash hashDate hashTuple .unknown = 0) ∧
    is_known .unknown = false := by
  refine ⟨fun v => ?_, rfl, fun _ _ => rfl, rfl⟩
  cases v <;> rfl

/-- Native comparison of `datetime.date` values: lexicographic on
`(year, month, day)` (used by `max` inside `recent`). -/
def pyDateLt (a b : Date) : Bool :=
  decide (a.year < b.year ∨ (a.year = b.year ∧ (a.month < b.month ∨
    (a.month = b.month ∧ a.day < b.day))))

/-- `recent(*dates)` (`version.py` lines 330-340): the body is `max(*dates)`.
With two or more dates Python's `max` scans the arguments keeping the current
maximum (replacing it when a later item is strictly greater).  With zero
arguments `max()` raises `TypeError`, and with exactly one argument
`max(d)` treats `d` as an iterable — a `datetime.date` is not iterable, so
this also raises `TypeError`.  Raising is modelled as `Except.error`. -/
def recent : List Date → Except Unit Date
  | [] => .error ()
  | [_] => .error ()
  | d :: d2 :: rest =>
    .ok ((d2 :: rest).foldl (fun acc x => if pyDateLt acc x then x else acc) d)

/-- C8 divergence: `recent` with two or more dates returns the most recent
date — `recent(date(2001,1,1), date(2002,1,1)) == date(2002,1,1)` — but with
exactly one date the call `max(*dates)` degenerates to `max(d)`, which raises
`TypeError` because a single date is not iterable, contradicting the claim
(and the repository's own `test_recent`, which expects the single date
back). -/
theorem recent_single_date_raises :
    recent [⟨2001, 1, 1⟩, ⟨2002, 1, 1⟩] = .ok ⟨2002, 1, 1⟩ ∧
    recent [⟨2001, 1, 1⟩] = .error () ∧
    recent [⟨2002, 1, 1⟩] = .error () :=
  ⟨rfl, rfl, rfl⟩

/-! ### `Default.from_str` and `DEFAULT_PATTERN` (`version.py` lines 166-168
and 219-233)

`DEFAULT_PATTERN` is
`(?P<prefix>.*[^\d+])?(?P<major>\d+)(\.(?P<minor>\d+))?(\.(?P<patch>\d+))?(?P<suffix>.*)`
matched with `re.match` (anchored at the start only).  The backtracking
engine tries the optional prefix group greedily: the group is `.*[^\d+]`, so a
candidate boundary `k` (prefix length) is valid when the characters strictly
before position `k - 1` contain no newline (`.` does not match `'\n'`), the
character at `k - 1` is neither a digit nor `'+'` (the class `[^\d+]`, which
does match `'\n'`), and a digit follows at position `k` (the mandatory
`major`).  The longest valid `k ≥ 1` wins; if none exists the group is
skipped, which requires the string to start with a digit.  After the greedy
digit run of `major`, each `(\.\d+)?` group consumes a dot plus a nonempty
digit run if one is present, and `suffix` (`.*`) takes the remaining
characters up to the first newline; anything after that newline is outside
the match and is dropped. -/

/-- The prefix group `.*[^\d+]` ends at position `j` and a digit follows:
the class character at `j` is neither a digit nor `'+'`, the digit of `major`
sits at `j + 1`, and the `.*` part before `j` has no newline. -/
def okSplitAt (s : List Char) (j : Nat) : Bool :=
  match s.get? j, s.get? (j + 1) with
  | some d, some c =>
    (!d.isDigit && decide (d ≠ '+')) && c.isDigit &&
      (s.take j).all (fun a => decide (a ≠ '\n'))
  | _, _ => false

/-- Validity of prefix-group boundary `k` (prefix length) for
`DEFAULT_PATTERN` (see above): the group needs at least one character. -/
def okSplit (s : List Char) : Nat → Bool
  | 0 => false
  | j + 1 => okSplitAt s j

/-- Greedy search for the prefix boundary: `hi, hi - 1, …, 1`. -/
def bestSplitFrom (s : List Char) : Nat → Option Nat
  | 0 => none
  | k + 1 => if okSplit s (k + 1) then some (k + 1) else bestSplitFrom s k

/-- Does the string start with a digit (the prefix group skipped)? -/
def headDigit (s : List Char) : Bool :=
  match s.head? with
  | some c => c.isDigit
  | none => false

/-- The boundary `re.match(DEFAULT_PATTERN, s)` chooses between the prefix
group and `major`: the largest valid split, `0` with the group skipped when
`s` starts with a digit, or `none` when the match fails. -/
def matchSplit (s : List Char) : Option Nat :=
  match bestSplitFrom s s.length with
  | some k => some k
  | none => if headDigit s then some 0 else none

/-- One optional `(\.(?P<minor>\d+))?` group: consume `'.'` plus a nonempty
digit run, else consume nothing. -/
def optDotNum : List Char → Option (List Char) × List Char
  | [] => (none, [])
  | c :: t =>
    if c = '.' then
      match t.takeWhile Char.isDigit with
      | [] => (none, c :: t)
      | d => (some d, t.dropWhile Char.isDigit)
    else (none, c :: t)

/-- The named groups of a successful `DEFAULT_PATTERN` match.  The `prefix`
group is `pre` (empty when the group is unmatched, exactly as
`Default.from_str` defaults it). -/
structure MatchGroups where
  pre : List Char
  major : List Char
  minor : Option (List Char)
  patch : Option (List Char)
  suffix : List Char
  deriving DecidableEq

/-- `re.match(DEFAULT_PATTERN, s)` as a group extractor. -/
def pyMatchDefault (s : List Char) : Option MatchGroups :=
  match matchSplit s with
  | none => none
  | some k =>
    let rest := s.drop k
    let majS := rest.takeWhile Char.isDigit
    let r1 := rest.dropWhile Char.isDigit
    let p1 := optDotNum r1
    let p2 := optDotNum p1.2
    some ⟨s.take k, majS, p1.1, p2.1, p2.2.takeWhile (fun c => decide (c ≠ '\n'))⟩

/-- Python `int` of a digit string, via `Nat.ofDigits` on the little-endian
digit values. -/
def digitsToNat (l : List Char) : Nat :=
  Nat.ofDigits 10 (l.reverse.map (fun c => c.toNat - 48))

/-- `Default.from_str` (`version.py` lines 219-233): match `DEFAULT_PATTERN`,
raise (`none`) on failure, convert the numeric groups with `int`, and build
the `Default`; absent groups fall back to the constructor defaults. -/
def fromStrDefault (s : List Char) : Option Default :=
  (pyMatchDefault s).map fun g =>
    ⟨(digitsToNat g.major : Int), g.minor.map (fun m => (digitsToNat m : Int)),
      g.patch.map (fun m => (digitsToNat m : Int)), g.pre, g.suffix⟩

/-- The characters an optional `\.\d+` group contributes to the match. -/
def dotPart : Option (List Char) → List Char
  | none => []
  | some m => '.' :: m

theorem okSplit_false_of_ge (s : List Char) (j : Nat) (h : s.length ≤ j) :
    okSplit s j = false := by
  cases j with
  | zero => rfl
  | succ m =>
    show okSplitAt s m = false
    unfold okSplitAt
    rw [List.get?_eq_none.mpr (show s.length ≤ m + 1 by omega)]
    cases s.get? m <;> rfl

theorem bestSplitFrom_some (s : List Char) :
    ∀ n k, bestSplitFrom s n = some k →
      okSplit s k = true ∧ 1 ≤ k ∧ k ≤ n ∧ ∀ j, k < j → j ≤ n → okSplit s j = false := by
  intro n
  induction n with
  | zero => intro k h; cases h
  | succ n ih =>
    intro k h
    unfold bestSplitFrom at h
    by_cases ho : okSplit s (n + 1) = true
    · rw [if_pos ho] at h
      injection h with h
      subst h
      exact ⟨ho, by omega, le_refl _, fun j hj hj2 => absurd (lt_of_lt_of_le hj hj2) (lt_irrefl _)⟩
    · rw [if_neg ho] at h
      obtain ⟨h1, h2, h3, h4⟩ := ih k h
      refine ⟨h1, h2, by omega, fun j hj hj2 => ?_⟩
      rcases Nat.lt_succ_iff_lt_or_eq.mp (Nat.lt_succ_of_le hj2) with hlt | heq
      · exact h4 j hj (by omega)
      · subst heq
        exact Bool.eq_false_iff.mpr ho

theorem bestSplitFrom_none (s : List Char) :
    ∀ n, bestSplitFrom s n = none → ∀ j, 1 ≤ j → j ≤ n → okSplit s j = false := by
  intro n
  induction n with
  | zero => intro _ j h1 h2; omega
  | succ n ih =>
    intro h j h1 h2
    unfold bestSplitFrom at h
    by_cases ho : okSplit s (n + 1) = true
    · rw [if_pos ho] at h; cases h
    · rw [if_neg ho] at h
      rcases Nat.lt_succ_iff_lt_or_eq.mp (Nat.lt_succ_of_le h2) with hlt | heq
      · exact ih h j h1 (by omega)
      · subst heq
        exact Bool.eq_false_iff.mpr ho

theorem matchSplit_none_iff (s : List Char) :
    matchSplit s = none ↔ headDigit s = false ∧ ∀ j, okSplit s j = false := by
  constructor
  · intro h
    unfold matchSplit at h
    cases hb : bestSplitFrom s s.length with
    | some m => rw [hb] at h; cases h
    | none =>
      rw [hb] at h
      by_cases hh : headDigit s = true
      · rw [if_pos hh] at h; cases h
      · refine ⟨Bool.eq_false_iff.mpr hh, fun j => ?_⟩
        rcases Nat.eq_zero_or_pos j with h0 | h1
        · subst h0; rfl
        · rcases le_or_lt j s.length with hle | hgt
          · exact bestSplitFrom_none s s.length hb j h1 hle
          · exact okSplit_false_of_ge s j (by omega)
  · rintro ⟨hhd, hall⟩
    unfold matchSplit
    cases hb : bestSplitFrom s s.length with
    | some m =>
      obtain ⟨h1, _, _, _⟩ := bestSplitFrom_some s s.length m hb
      rw [hall m] at h1
      cases h1
    | none =>
      rw [hhd]
      rfl

theorem matchSplit_some_spec (s : List Char) (k : Nat) (h : matchSplit s = some k) :
    k ≤ s.length ∧ ((k = 0 ∧ headDigit s = true) ∨ (1 ≤ k ∧ okSplit s k = true)) ∧
      ∀ j, k < j → okSplit s j = false := by
  unfold matchSplit at h
  cases hb : bestSplitFrom s s.length with
  | some m =>
    rw [hb] at h
    dsimp only at h
    injection h with h
    subst h
    obtain ⟨h1, h2, h3, h4⟩ := bestSplitFrom_some s s.length m hb
    refine ⟨h3, Or.inr ⟨h2, h1⟩, fun j hj => ?_⟩
    rcases le_or_lt j s.length with hle | hgt
    · exact h4 j hj hle
    · exact okSplit_false_of_ge s j (by omega)
  | none =>
    rw [hb] at h
    dsimp only at h
    by_cases hh : headDigit s = true
    · rw [if_pos hh] at h
      injection h with h
      subst h
      refine ⟨Nat.zero_le _, Or.inl ⟨rfl, hh⟩, fun j hj => ?_⟩
      rcases le_or_lt j s.length with hle | hgt
      · exact bestSplitFrom_none s s.length hb j (by omega) hle
      · exact okSplit_false_of_ge s j (by omega)
    · rw [if_neg hh] at h
      cases h

theorem dropWhile_head_false (p : Char → Bool) :
    ∀ (l : List Char) (c : Char) (t : List Char), l.dropWhile p = c :: t → p c = false := by
  intro l
  induction l with
  | nil => intro c t h; cases h
  | cons a l ih =>
    intro c t h
    by_cases hp : p a
    · rw [List.dropWhile_cons_of_pos hp] at h
      exact ih c t h
    · rw [List.dropWhile_cons_of_neg hp] at h
      cases h
      exact Bool.eq_false_iff.mpr hp

theorem optDotNum_spec (l : List Char) :
    l = dotPart (optDotNum l).1 ++ (optDotNum l).2 ∧
    (∀ d, (optDotNum l).1 = some d → d ≠ [] ∧ d.all Char.isDigit = true) ∧
    ((optDotNum l).1 = none → (optDotNum l).2 = l) := by
  cases l with
  | nil => exact ⟨rfl, fun _ h => Option.noConfusion h, fun _ => rfl⟩
  | cons c t =>
    have he : optDotNum (c :: t) =
        if c = '.' then
          match t.takeWhile Char.isDigit with
          | [] => (none, c :: t)
          | d => (some d, t.dropWhile Char.isDigit)
        else (none, c :: t) := rfl
    by_cases hc : c = '.'
    · subst hc
      rw [if_pos rfl] at he
      cases ht : t.takeWhile Char.isDigit with
      | nil =>
        rw [ht] at he
        rw [he]
        exact ⟨rfl, fun _ h => Option.noConfusion h, fun _ => rfl⟩
      | cons a d =>
        rw [ht] at he
        rw [he]
        refine ⟨?_, fun e hee => ?_, fun hn => Option.noConfusion hn⟩
        · show '.' :: t = ('.' :: (a :: d)) ++ t.dropWhile Char.isDigit
          have hta := List.takeWhile_append_dropWhile Char.isDigit t
          rw [ht] at hta
          rw [List.cons_append, hta]
        · injection hee with hee
          subst hee
          refine ⟨List.cons_ne_nil a d, ?_⟩
          rw [← ht]
          exact List.all_takeWhile ..
    · rw [if_neg hc] at he
      rw [he]
      exact ⟨rfl, fun _ h => Option.noConfusion h, fun _ => rfl⟩

theorem okSplit_digit (s : List Char) (k : Nat) (h : okSplit s k = true) :
    ∃ c, s.get? k = some c ∧ c.isDigit = true := by
  cases k with
  | zero => cases h
  | succ j =>
    have h' : okSplitAt s j = true := h
    unfold okSplitAt at h'
    cases hd : s.get? j with
    | none =>
      rw [hd] at h'
      cases hc : s.get? (j + 1) <;> rw [hc] at h' <;> dsimp only at h' <;> cases h'
    | some d =>
      rw [hd] at h'
      cases hc : s.get? (j + 1) with
      | none => rw [hc] at h'; dsimp only at h'; cases h'
      | some c =>
        rw [hc] at h'
        dsimp only at h'
        rw [Bool.and_eq_true, Bool.and_eq_true] at h'
        exact ⟨c, rfl, h'.1.2⟩

theorem okSplit_lt_length (s : List Char) (k : Nat) (h : okSplit s k = true) :
    k < s.length := by
  obtain ⟨c, hc, _⟩ := okSplit_digit s k h
  by_contra hle
  rw [List.get?_eq_none.mpr (by omega)] at hc
  cases hc

theorem takeWhile_ne_nil_of_head (p : Char → Bool) (l : List Char) (c : Char)
    (h : l.head? = some c) (hp : p c = true) : l.takeWhile p ≠ [] := by
  cases l with
  | nil => cases h
  | cons a t =>
    injection h with h
    subst h
    rw [List.takeWhile_cons_of_pos hp]
    exact List.cons_ne_nil _ _

theorem head?_drop_eq_get? (l : List Char) (n : Nat) : (l.drop n).head? = l.get? n := by
  rw [List.head?_drop, List.get?_eq_getElem?]

/-- What a successful `DEFAULT_PATTERN` match guarantees about its groups:
`s` splits exactly into prefix, major, the optional dotted runs, the
suffix and a dropped remainder that is empty or starts at a newline; `major`
and the optional runs are nonempty digit runs; the suffix has no newline; a
`patch` group needs a `minor` group; the prefix boundary is valid (or the
group is skipped and `s` starts with a digit) and no larger boundary is —
the prefix itself is unconstrained apart from its final character, so it may
contain digits. -/
def MatchDecomp (s : List Char) (g : MatchGroups) : Prop :=
  (∃ rest, s = g.pre ++ (g.major ++ (dotPart g.minor ++ (dotPart g.patch ++ (g.suffix ++ rest)))) ∧
    (rest = [] ∨ rest.head? = some '\n')) ∧
  g.major ≠ [] ∧ g.major.all Char.isDigit = true ∧
  (∀ m, g.minor = some m → m ≠ [] ∧ m.all Char.isDigit = true) ∧
  (∀ m, g.patch = some m → m ≠ [] ∧ m.all Char.isDigit = true) ∧
  (g.minor = none → g.patch = none) ∧
  g.suffix.all (fun c => decide (c ≠ '\n')) = true ∧
  ((g.pre = [] ∧ headDigit s = true) ∨ okSplit s g.pre.length = true) ∧
  (∀ j, g.pre.length < j → okSplit s j = false)

theorem pyMatch_groups (s : List Char) (k : Nat) (hms : matchSplit s = some k) :
    pyMatchDefault s =
      some ⟨s.take k, (s.drop k).takeWhile Char.isDigit,
        (optDotNum ((s.drop k).dropWhile Char.isDigit)).1,
        (optDotNum (optDotNum ((s.drop k).dropWhile Char.isDigit)).2).1,
        ((optDotNum (optDotNum ((s.drop k).dropWhile Char.isDigit)).2).2).takeWhile
          (fun c => decide (c ≠ '\n'))⟩ := by
  unfold pyMatchDefault
  rw [hms]

theorem pyMatch_decomp (s : List Char) (g : MatchGroups)
    (h : pyMatchDefault s = some g) : MatchDecomp s g := by
  unfold pyMatchDefault at h
  cases hms : matchSplit s with
  | none => rw [hms] at h; cases h
  | some k =>
    rw [hms] at h
    dsimp only at h
    injection h with h
    obtain ⟨hklen, hksplit, hkmax⟩ := matchSplit_some_spec s k hms
    have hprelen : (s.take k).length = k := by
      rw [List.length_take]
      omega
    have hmajne : (s.drop k).takeWhile Char.isDigit ≠ [] := by
      rcases hksplit with ⟨hk0, hhd⟩ | ⟨_, hok⟩
      · subst hk0
        unfold headDigit at hhd
        cases hs : s.head? with
        | none => rw [hs] at hhd; cases hhd
        | some c =>
          rw [hs] at hhd
          refine takeWhile_ne_nil_of_head _ _ c ?_ hhd
          rw [List.drop_zero, hs]
      · obtain ⟨c, hc, hdig⟩ := okSplit_digit s k hok
        refine takeWhile_ne_nil_of_head _ _ c ?_ hdig
        rw [head?_drop_eq_get?, hc]
    have he1 := optDotNum_spec ((s.drop k).dropWhile Char.isDigit)
    rcases hp1 : optDotNum ((s.drop k).dropWhile Char.isDigit) with ⟨m1, r2⟩
    rw [hp1] at h he1
    dsimp only at h he1
    have he2 := optDotNum_spec r2
    rcases hp2 : optDotNum r2 with ⟨m2, r3⟩
    rw [hp2] at h he2
    dsimp only at h he2
    subst h
    unfold MatchDecomp
    dsimp only
    refine ⟨?_, hmajne, List.all_takeWhile .., he1.2.1, he2.2.1, ?_, List.all_takeWhile .., ?_, ?_⟩
    · refine ⟨r3.dropWhile (fun c => decide (c ≠ '\n')), ?_, ?_⟩
      · calc s = s.take k ++ s.drop k := (List.take_append_drop k s).symm
          _ = s.take k ++ ((s.drop k).takeWhile Char.isDigit ++ (s.drop k).dropWhile Char.isDigit) := by
              rw [List.takeWhile_append_dropWhile]
          _ = s.take k ++ ((s.drop k).takeWhile Char.isDigit ++ (dotPart m1 ++ r2)) := by
              rw [← he1.1]
          _ = s.take k ++ ((s.drop k).takeWhile Char.isDigit ++ (dotPart m1 ++ (dotPart m2 ++ r3))) := by
              rw [← he2.1]
          _ = _ := by
              rw [List.takeWhile_append_dropWhile (fun c => decide (c ≠ '\n')) r3]
      · cases hres : r3.dropWhile (fun c => decide (c ≠ '\n')) with
        | nil => exact Or.inl rfl
        | cons c t =>
          right
          have hd := dropWhile_head_false (fun c => decide (c ≠ '\n')) r3 c t hres
          have hc : c = '\n' := by
            by_contra hcc
            simp [hcc] at hd
          rw [hc]
          rfl
    · intro hnone
      have hr2 : r2 = (s.drop k).dropWhile Char.isDigit := he1.2.2 hnone
      rw [hr2, hp1] at hp2
      injection hp2 with hm hr
      exact hm ▸ hnone
    · rcases hksplit with ⟨hk0, hhd⟩ | ⟨_, hok⟩
      · subst hk0
        exact Or.inl ⟨rfl, hhd⟩
      · rw [hprelen]
        exact Or.inr hok
    · intro j hj
      rw [hprelen] at hj
      exact hkmax j hj

/-- C6 (amended): `Default.from_str(s)` decomposes `s` into an optional
prefix — the longest initial segment ending in a character that is neither a
digit nor `'+'` (with no earlier newline) that is immediately followed by a
digit, a segment that may itself contain digits — then the dotted numeric run
`major[.minor[.patch]]` bound to the integer fields, then everything after
the numeric run up to the first newline as suffix; it raises a parse failure
exactly when `s` does not start with a digit and no such prefix boundary
exists. -/
theorem from_str_decomposition (s : List Char) (g : MatchGroups)
    (h : pyMatchDefault s = some g) :
    MatchDecomp s g ∧
    (∀ t : List Char, fromStrDefault t = none ↔
      (headDigit t = false ∧ ∀ j, okSplit t j = false)) := by
  refine ⟨pyMatch_decomp s g h, fun t => ?_⟩
  unfold fromStrDefault
  rw [Option.map_eq_none']
  constructor
  · intro hn
    unfold pyMatchDefault at hn
    cases hmt : matchSplit t with
    | none => exact (matchSplit_none_iff t).mp hmt
    | some k =>
      rw [hmt] at hn
      cases hn
  · intro hcond
    unfold pyMatchDefault
    rw [(matchSplit_none_iff t).mpr hcond]

/-- Witness for `from_str_decomposition` at `s = "a1"`. -/
theorem from_str_decomposition_witness :
    MatchDecomp ("a1".toList) ⟨['a'], ['1'], none, none, []⟩ ∧
    (∀ t : List Char, fromStrDefault t = none ↔
      (headDigit t = false ∧ ∀ j, okSplit t j = false)) :=
  from_str_decomposition ("a1".toList) ⟨['a'], ['1'], none, none, []⟩ (by decide)

/-- C6 counterexample: on `"1.2.3"` the greedy prefix group captures
`"1.2."` — which contains digits, refuting "the prefix is a leading run of
non-digit characters" (the fields get `major = 3` alone) — and `"+1"`
contains a digit run yet fails to parse, refuting the stated failure
condition. -/
theorem from_str_prefix_digits :
    pyMatchDefault ("1.2.3".toList) = some ⟨"1.2.".toList, ['3'], none, none, []⟩ ∧
    ("1.2.".toList).any Char.isDigit = true ∧
    ("+1".toList).any Char.isDigit = true ∧
    pyMatchDefault ("+1".toList) = none :=
  ⟨by decide, by decide, by decide, by decide⟩

theorem natStrAux_eq (fuel : Nat) :
    ∀ n, n ≤ fuel →
      natStrAux fuel n = ((Nat.digits 10 n).map (fun d => Char.ofNat (48 + d))).reverse := by
  induction fuel with
  | zero =>
    intro n h
    have hn : n = 0 := by omega
    subst hn
    simp [natStrAux]
  | succ f ih =>
    intro n h
    cases n with
    | zero => simp [natStrAux]
    | succ m =>
      rw [Nat.digits_def' (by norm_num : (1 : ℕ) < 10) (Nat.succ_pos m)]
      show natStrAux f ((m + 1) / 10) ++ [Char.ofNat (48 + (m + 1) % 10)] = _
      have hdiv : (m + 1) / 10 ≤ f := by
        have := Nat.div_lt_self (Nat.succ_pos m) (by norm_num : 1 < 10)
        omega
      rw [List.map_cons, List.reverse_cons, ih _ hdiv]

theorem natStr_eq (n : Nat) (h : n ≠ 0) :
    natStr n = ((Nat.digits 10 n).map (fun d => Char.ofNat (48 + d))).reverse := by
  unfold natStr
  rw [if_neg h]
  exact natStrAux_eq n n (le_refl n)

theorem isDigit_toNat_bounds (c : Char) (h : c.isDigit = true) :
    48 ≤ c.toNat ∧ c.toNat ≤ 57 := by
  simp [Char.isDigit] at h
  exact h

theorem char_ofNat_digitVal (c : Char) (h : c.isDigit = true) :
    Char.ofNat (48 + (c.toNat - 48)) = c := by
  obtain ⟨h1, _⟩ := isDigit_toNat_bounds c h
  rw [show 48 + (c.toNat - 48) = c.toNat by omega]
  exact Char.ofNat_toNat c

theorem toNat_eq_48_imp_zero (c : Char) (h : c.toNat = 48) : c = '0' := by
  have := Char.ofNat_toNat c
  rw [h] at this
  exact this.symm

/-- Printing a parsed digit run gives back the run, provided the run is a
nonempty all-digit run with no leading zero. -/
theorem natStr_digitsToNat (l : List Char) (hne : l ≠ [])
    (hdig : l.all Char.isDigit = true) (hlz : l.head? = some '0' → l = ['0']) :
    natStr (digitsToNat l) = l := by
  by_cases h0 : l = ['0']
  · subst h0
    rfl
  · obtain ⟨c, t, rfl⟩ : ∃ c t, l = c :: t := by
      cases l with
      | nil => exact absurd rfl hne
      | cons c t => exact ⟨c, t, rfl⟩
    have hcd : c.isDigit = true := by
      rw [List.all_cons, Bool.and_eq_true] at hdig
      exact hdig.1
    have hcne : c ≠ '0' := fun hc => h0 (hlz (by rw [hc]; rfl))
    have hmem_digit : ∀ x ∈ (c :: t).reverse, x.isDigit = true := by
      intro x hx
      rw [List.mem_reverse] at hx
      exact List.all_eq_true.mp hdig x hx
    have hful : ∀ d ∈ (c :: t).reverse.map (fun ch => ch.toNat - 48), d < 10 := by
      intro d hd
      rw [List.mem_map] at hd
      obtain ⟨x, hx, rfl⟩ := hd
      obtain ⟨_, h2⟩ := isDigit_toNat_bounds x (hmem_digit x hx)
      omega
    have hlast? : ((c :: t).reverse.map (fun ch => ch.toNat - 48)).getLast? =
        some (c.toNat - 48) := by
      rw [List.getLast?_map, List.getLast?_reverse]
      rfl
    have hlast : ∀ (h : (c :: t).reverse.map (fun ch => ch.toNat - 48) ≠ []),
        ((c :: t).reverse.map (fun ch => ch.toNat - 48)).getLast h ≠ 0 := by
      intro hne'
      rw [List.getLast?_eq_getLast _ hne', Option.some_inj] at hlast?
      rw [hlast?]
      obtain ⟨h1, _⟩ := isDigit_toNat_bounds c hcd
      intro hz
      exact hcne (toNat_eq_48_imp_zero c (by omega))
    have hdg : Nat.digits 10 (Nat.ofDigits 10 ((c :: t).reverse.map (fun ch => ch.toNat - 48))) =
        (c :: t).reverse.map (fun ch => ch.toNat - 48) :=
      Nat.digits_ofDigits 10 (by norm_num) _ hful hlast
    have hnz : Nat.ofDigits 10 ((c :: t).reverse.map (fun ch => ch.toNat - 48)) ≠ 0 := by
      intro hz
      rw [hz, Nat.digits_zero] at hdg
      have : ((c :: t).reverse.map (fun ch => ch.toNat - 48)) ≠ [] := by
        simp
      exact this hdg.symm
    show natStr (Nat.ofDigits 10 ((c :: t).reverse.map (fun ch => ch.toNat - 48))) = c :: t
    rw [natStr_eq _ hnz, hdg, List.map_map]
    have hpoint : ∀ x ∈ (c :: t).reverse,
        ((fun d => Char.ofNat (48 + d)) ∘ fun ch => ch.toNat - 48) x = x := by
      intro x hx
      exact char_ofNat_digitVal x (hmem_digit x hx)
    rw [List.map_congr_left hpoint, List.map_id', List.reverse_reverse]

theorem intStr_natCast (n : Nat) : intStr (n : Int) = natStr n := by
  unfold intStr
  rw [if_neg (by omega), Int.toNat_natCast]

/-- Number of days in a month (the `datetime` validation rule). -/
def daysInMonth (y m : Nat) : Nat :=
  if m = 2 then
    (if y % 4 = 0 ∧ (y % 100 ≠ 0 ∨ y % 400 = 0) then 29 else 28)
  else if m = 4 ∨ m = 6 ∨ m = 9 ∨ m = 11 then 30 else 31

/-- The `%m` token of `strptime`: regex `1[0-2]|0[1-9]|[1-9]`, alternatives
tried in order. -/
def parseMonth : List Char → Option (Nat × List Char)
  | [] => none
  | [c] => if '1' ≤ c ∧ c ≤ '9' then some (c.toNat - 48, []) else none
  | c1 :: c2 :: rest =>
    if c1 = '1' ∧ '0' ≤ c2 ∧ c2 ≤ '2' then some (10 + (c2.toNat - 48), rest)
    else if c1 = '0' ∧ '1' ≤ c2 ∧ c2 ≤ '9' then some (c2.toNat - 48, rest)
    else if '1' ≤ c1 ∧ c1 ≤ '9' then some (c1.toNat - 48, c2 :: rest)
    else none

/-- The `%d` token of `strptime`: regex `3[01]|[12]\d|0[1-9]|[1-9]`,
alternatives tried in order. -/
def parseDay : List Char → Option (Nat × List Char)
  | [] => none
  | [c] => if '1' ≤ c ∧ c ≤ '9' then some (c.toNat - 48, []) else none
  | c1 :: c2 :: rest =>
    if c1 = '3' ∧ (c2 = '0' ∨ c2 = '1') then some (30 + (c2.toNat - 48), rest)
    else if (c1 = '1' ∨ c1 = '2') ∧ c2.isDigit then
      some (10 * (c1.toNat - 48) + (c2.toNat - 48), rest)
    else if c1 = '0' ∧ '1' ≤ c2 ∧ c2 ≤ '9' then some (c2.toNat - 48, rest)
    else if '1' ≤ c1 ∧ c1 ≤ '9' then some (c1.toNat - 48, c2 :: rest)
    else none

/-- `Date.from_str` (`version.py` lines 156-158):
`datetime.strptime(s, DATE_FORMAT)` with `DATE_FORMAT = "%Y_%m_%d"`,
modelled for that fixed format: four year digits, `'_'`, month, `'_'`, day,
the whole string consumed, and the date valid (`datetime` rejects day `0` or
a day past the month's end; the month/day tokens already enforce their
ranges).  `strptime` failures (`ValueError`) are `none`.  The resulting
`datetime` is represented by its date fields. -/
def fromStrDate (s : List Char) : Option Date :=
  match s with
  | a :: b :: c :: d :: '_' :: rest =>
    if a.isDigit ∧ b.isDigit ∧ c.isDigit ∧ d.isDigit then
      match parseMonth rest with
      | some (m, '_' :: rest2) =>
        match parseDay rest2 with
        | some (day, []) =>
          let y := digitsToNat [a, b, c, d]
          if 1 ≤ y ∧ 1 ≤ day ∧ day ≤ daysInMonth y m then some ⟨y, m, day⟩ else none
        | _ => none
      | _ => none
    else none
  | _ => none

/-- C7 (amended): `Default.from_str("pre-1.1.2-post")` equals
`Default(1,1,2,prefix="pre-",suffix="-post")` under `Default` equality (which
is string-representation equality — the parse itself puts the characters
`"pre-1.1."` into the prefix and only `2` into `major`, but renders to the
same string); `str(Default(1,2,3)) == "1.2.3"`;
`Date.from_str("2020_05_01").to_date() == date(2020,5,1)`; and for every
newline-free string `s` on which `from_str` succeeds whose matched numeric
runs have no leading zero, `str(Default.from_str(s)) == s`. -/
theorem default_round_trip :
    ((fromStrDefault ("pre-1.1.2-post".toList)).map
      (fun v => eqDefault v ⟨1, some 1, some 2, "pre-".toList, "-post".toList⟩) = some true) ∧
    strDefault ⟨1, some 2, some 3, [], []⟩ = "1.2.3".toList ∧
    ((fromStrDate ("2020_05_01".toList)).map toDate = some (⟨2020, 5, 1⟩ : Date)) ∧
    (∀ (s : List Char) (g : MatchGroups),
      s.all (fun c => decide (c ≠ '\n')) = true →
      pyMatchDefault s = some g →
      (g.major.head? = some '0' → g.major = ['0']) →
      (∀ m, g.minor = some m → m.head? = some '0' → m = ['0']) →
      (∀ m, g.patch = some m → m.head? = some '0' → m = ['0']) →
      (fromStrDefault s).map strDefault = some s) := by
  refine ⟨by decide, by decide, by decide, ?_⟩
  intro s g hnl hm hz1 hz2 hz3
  obtain ⟨⟨rest, hs, hrest⟩, hmajne, hmajdig, hminor, hpatch, hmp, _, _, _⟩ :=
    pyMatch_decomp s g hm
  have hrestnil : rest = [] := by
    rcases hrest with h | h
    · exact h
    · exfalso
      have hmem : '\n' ∈ s := by
        rw [hs]
        cases rest with
        | nil => cases h
        | cons c t =>
          injection h with h
          subst h
          simp
      have := List.all_eq_true.mp hnl '\n' hmem
      simp at this
  unfold fromStrDefault
  rw [hm, Option.map_some', Option.map_some']
  refine congrArg some ?_
  unfold strDefault
  dsimp only
  rw [hs, hrestnil, List.append_nil]
  have hmaj : intStr ((digitsToNat g.major : Int)) = g.major := by
    rw [intStr_natCast]
    exact natStr_digitsToNat g.major hmajne hmajdig hz1
  rcases hmin : g.minor with _ | m
  · have hpat : g.patch = none := hmp hmin
    rw [hpat]
    dsimp only [dotPart, Option.map_none']
    rw [show ([some (digitsToNat g.major : Int), (none : Option Int),
        (none : Option Int)].filterMap id) = [(digitsToNat g.major : Int)] from rfl]
    dsimp only [List.map, joinDot]
    rw [hmaj]
    simp [List.append_assoc]
  · have hm1 : intStr ((digitsToNat m : Int)) = m := by
      rw [intStr_natCast]
      exact natStr_digitsToNat m ((hminor m hmin).1) ((hminor m hmin).2) (hz2 m hmin)
    rcases hpat : g.patch with _ | q
    · dsimp only [dotPart, Option.map_some', Option.map_none']
      rw [show ([some (digitsToNat g.major : Int), some (digitsToNat m : Int),
          (none : Option Int)].filterMap id) =
        [(digitsToNat g.major : Int), (digitsToNat m : Int)] from rfl]
      dsimp only [List.map, joinDot]
      rw [hmaj, hm1]
      simp [List.append_assoc]
    · have hq1 : intStr ((digitsToNat q : Int)) = q := by
        rw [intStr_natCast]
        exact natStr_digitsToNat q ((hpatch q hpat).1) ((hpatch q hpat).2) (hz3 q hpat)
      dsimp only [dotPart, Option.map_some']
      rw [show ([some (digitsToNat g.major : Int), some (digitsToNat m : Int),
          some (digitsToNat q : Int)].filterMap id) =
        [(digitsToNat g.major : Int), (digitsToNat m : Int), (digitsToNat q : Int)] from rfl]
      dsimp only [List.map, joinDot]
      rw [hmaj, hm1, hq1]
      simp [List.append_assoc]

/-- Witness for `default_round_trip` at `s = "a12"`. -/
theorem default_round_trip_witness :
    (fromStrDefault ("a12".toList)).map strDefault = some ("a12".toList) :=
  default_round_trip.2.2.2 ("a12".toList) ⟨['a'], ['1', '2'], none, none, []⟩
    (by decide) (by decide) (by decide)
    (fun m hm => Option.noConfusion hm) (fun m hm => Option.noConfusion hm)

/-- C7 counterexample: `"01"` is newline-free and contains a digit, yet
`str(Default.from_str("01"))` is `"1"`, not `"01"` (`int("01")` collapses the
leading zero). -/
theorem round_trip_leading_zero :
    (fromStrDefault ("01".toList)).map strDefault = some ("1".toList) ∧
    "1".toList ≠ "01".toList :=
  ⟨by decide, by decide⟩

/-! ## Config registry (`i_vis/core/config.py`) -/

/-- Python `str.upper()` (character-wise; the code only uppercases ASCII
identifier parts). -/
def pyUpper (s : String) : String := ⟨s.data.map Char.toUpper⟩

/-- Python `str.startswith(t)`: `t` is a prefix of `s` (modelled on the
character lists). -/
def pyStartsWith (s t : String) : Bool := t.data.isPrefixOf s.data

/-- The metadata dict `register_variable` stores (`config.py` line 76). -/
structure VarMeta where
  vtype : String
  required : Bool
  pname : Option String
  default : Option String
  deriving DecidableEq

/-- The two registries of `ConfigMeta` (`config.py` lines 36-38), as
insertion-ordered association lists. -/
structure ConfigMeta where
  name2var : List (String × VarMeta)
  pname2vars : List (String × List (String × VarMeta))
  deriving DecidableEq

/-- Python `m.get(k, d)` / the read half of `setdefault`. -/
def lookupD (m : List (String × β)) (k : String) (d : β) : β :=
  match m.find? (fun p => p.1 == k) with
  | some p => p.2
  | none => d

/-- Python truthiness of an optional string (`if pname:`). -/
def pyTruthy (o : Option String) : Bool :=
  match o with
  | some p => p ≠ ""
  | none => false

/-- `variable_name(name, pname)` (`config.py` lines 198-212):
`"I_VIS_{pname}_{name}".upper()` when `pname` is truthy (not `None`, not
empty) and does not start with `"i-vis-"`, else `"I_VIS_{name}".upper()`. -/
def variable_name (name : String) (pname : Option String) : String :=
  match pname with
  | some p =>
    if p ≠ "" ∧ pyStartsWith p "i-vis-" = false then pyUpper ("I_VIS_" ++ p ++ "_" ++ name)
    else pyUpper ("I_VIS_" ++ name)
  | none => pyUpper ("I_VIS_" ++ name)

/-- `ConfigMeta.register_variable` (`config.py` lines 45-81): raise
`ValueError` (modelled as `Except.error`, with the registries untouched —
the Python checks run before any mutation) when `vtype` is not `"core"` or
`"plugin"`, when `vtype == "core"` and `pname is not None`, or when
`vtype == "plugin"` and `pname is None`; otherwise store the metadata under
the formatted name, additionally index it by `pname` when `pname` is truthy
(`if pname:` — an empty string is not indexed), and return the formatted
name. -/
def register_variable (cm : ConfigMeta) (name vtype : String) (required : Bool)
    (pname : Option String) (default : Option String) :
    Except Unit (ConfigMeta × String) :=
  if vtype ≠ "core" ∧ vtype ≠ "plugin" then .error ()
  else if vtype = "core" ∧ pname.isSome then .error ()
  else if vtype = "plugin" ∧ pname.isNone then .error ()
  else
    let var := variable_name name pname
    let meta : VarMeta := ⟨vtype, required, pname, default⟩
    let cm1 : ConfigMeta := ⟨dictSet cm.name2var var meta, cm.pname2vars⟩
    let cm2 : ConfigMeta :=
      if pyTruthy pname then
        ⟨cm1.name2var,
          dictSet cm1.pname2vars (pname.getD "")
            (dictSet (lookupD cm1.pname2vars (pname.getD "") []) var meta)⟩
      else cm1
    .ok (cm2, var)

/-- The naming rule as the claim words it ("`I_VIS_{pname}_{name}` uppercased
when `pname` is given and does not start with `i-vis-`, else `I_VIS_{name}`
uppercased"), for comparison against the code's `variable_name`. -/
def claimedVariableName (name : String) (pname : Option String) : String :=
  match pname with
  | some p =>
    if pyStartsWith p "i-vis-" = false then pyUpper ("I_VIS_" ++ p ++ "_" ++ name)
    else pyUpper ("I_VIS_" ++ name)
  | none => pyUpper ("I_VIS_" ++ name)

/-- C10 counterexample: registering a plugin variable with the empty-string
plugin name `pname = ""` does not raise (the checks compare against `None`),
but the returned name is `"I_VIS_X"` — the `if pname:` truthiness test skips
the `"I_VIS_{pname}_{name}"` format — while the claim's rule ("pname is
given and does not start with i-vis-") yields `"I_VIS__X"`. -/
theorem register_variable_empty_pname :
    (register_variable ⟨[], []⟩ "x" "plugin" false (some "") none).toOption.map Prod.snd =
      some "I_VIS_X" ∧
    claimedVariableName "x" (some "") = "I_VIS__X" ∧
    ("I_VIS_X" : String) ≠ "I_VIS__X" :=
  ⟨by decide, by decide, by decide⟩

/-- C10 (amended): `register_variable` raises exactly when `vtype` is neither
`"core"` nor `"plugin"`, or `vtype` is `"core"` with a non-`None` `pname`, or
`vtype` is `"plugin"` with `pname` `None` (in every error case the registry
is unchanged — the embedded function returns no new state, as the Python
checks precede every mutation); on success it returns
`"I_VIS_{pname}_{name}"` uppercased when `pname` is given, **non-empty** and
does not start with `"i-vis-"`, else `"I_VIS_{name}"` uppercased, stores the
metadata under that name, and indexes it by `pname` exactly when `pname` is
truthy. -/
theorem register_variable_spec (cm : ConfigMeta) (name vtype : String)
    (required : Bool) (pname : Option String) (default : Option String) :
    ((register_variable cm name vtype required pname default).isOk = false ↔
      (vtype ≠ "core" ∧ vtype ≠ "plugin") ∨ (vtype = "core" ∧ pname.isSome) ∨
        (vtype = "plugin" ∧ pname.isNone)) ∧
    (∀ cm2 var, register_variable cm name vtype required pname default = .ok (cm2, var) →
      var = (match pname with
        | some p =>
          if p ≠ "" ∧ pyStartsWith p "i-vis-" = false then pyUpper ("I_VIS_" ++ p ++ "_" ++ name)
          else pyUpper ("I_VIS_" ++ name)
        | none => pyUpper ("I_VIS_" ++ name)) ∧
      cm2.name2var = dictSet cm.name2var var ⟨vtype, required, pname, default⟩ ∧
      cm2.pname2vars = (if pyTruthy pname then
          dictSet cm.pname2vars (pname.getD "")
            (dictSet (lookupD cm.pname2vars (pname.getD "") []) var
              ⟨vtype, required, pname, default⟩)
        else cm.pname2vars)) := by
  unfold register_variable
  by_cases h1 : vtype ≠ "core" ∧ vtype ≠ "plugin"
  · rw [if_pos h1]
    exact ⟨iff_of_true rfl (Or.inl h1), fun _ _ h => Except.noConfusion h⟩
  · rw [if_neg h1]
    by_cases h2 : vtype = "core" ∧ pname.isSome
    · rw [if_pos h2]
      exact ⟨iff_of_true rfl (Or.inr (Or.inl h2)), fun _ _ h => Except.noConfusion h⟩
    · rw [if_neg h2]
      by_cases h3 : vtype = "plugin" ∧ pname.isNone
      · rw [if_pos h3]
        exact ⟨iff_of_true rfl (Or.inr (Or.inr h3)), fun _ _ h => Except.noConfusion h⟩
      · rw [if_neg h3]
        refine ⟨iff_of_false ?_ ?_, fun cm2 var h => ?_⟩
        · intro hh
          dsimp only at hh
          cases hh
        · rintro (ha | hb | hc)
          · exact h1 ha
          · exact h2 hb
          · exact h3 hc
        · dsimp only at h
          injection h with h
          obtain ⟨hcm, hvar⟩ := Prod.mk.inj h
          subst hcm
          subst hvar
          refine ⟨?_, ?_, ?_⟩
          · cases pname <;> rfl
          · by_cases ht : pyTruthy pname = true
            · rw [if_pos ht]
            · rw [if_neg ht]
          · by_cases ht : pyTruthy pname = true
            · rw [if_pos ht, if_pos ht]
            · rw [if_neg ht, if_neg ht]

/-- Witness for `register_variable_spec`: registering plugin variable `x`
for plugin `p` in the empty registry. -/
theorem register_variable_spec_witness :
    (("I_VIS_P_X" : String) = (match (some "p" : Option String) with
      | some p =>
        if p ≠ "" ∧ pyStartsWith p "i-vis-" = false then pyUpper ("I_VIS_" ++ p ++ "_" ++ "x")
        else pyUpper ("I_VIS_" ++ "x")
      | none => pyUpper ("I_VIS_" ++ "x")) ∧
    (⟨[("I_VIS_P_X", ⟨"plugin", false, some "p", none⟩)],
        [("p", [("I_VIS_P_X", ⟨"plugin", false, some "p", none⟩)])]⟩ : ConfigMeta).name2var =
      dictSet (⟨[], []⟩ : ConfigMeta).name2var "I_VIS_P_X" ⟨"plugin", false, some "p", none⟩ ∧
    (⟨[("I_VIS_P_X", ⟨"plugin", false, some "p", none⟩)],
        [("p", [("I_VIS_P_X", ⟨"plugin", false, some "p", none⟩)])]⟩ : ConfigMeta).pname2vars =
      (if pyTruthy (some "p") then
          dictSet (⟨[], []⟩ : ConfigMeta).pname2vars ((some "p").getD "")
            (dictSet (lookupD (⟨[], []⟩ : ConfigMeta).pname2vars ((some "p").getD "") [])
              "I_VIS_P_X" ⟨"plugin", false, some "p", none⟩)
        else (⟨[], []⟩ : ConfigMeta).pname2vars)) :=
  (register_variable_spec ⟨[], []⟩ "x" "plugin" false (some "p") none).2
    ⟨[("I_VIS_P_X", ⟨"plugin", false, some "p", none⟩)],
      [("p", [("I_VIS_P_X", ⟨"plugin", false, some "p", none⟩)])]⟩ "I_VIS_P_X" rfl

end IVis
